import Mathlib

/-!
# Verification of the perceptual-filter content-filtering pipeline

Shallow embedding of the post-processing pipeline of the browser
content-filtering extension (source: src/contents/social-post-blocker.tsx,
src/contents/services/cache.ts, src/contents/components/PostCover.tsx).

The embedding models one invocation of processPost on a single post
element as a pure function from an environment (values read from storage,
the DOM and the remote categorizer during the call) and a mutable state
(the post element's attributes/overlays and the module-level
processedPosts cache) to a result state plus an effect trace.
JavaScript strings are modelled as Lean Strings; JS Maps as
association lists keyed by String.
-/

namespace PerceptualFilter

/-- JS toUpperCase restricted to ASCII content: upcase every character
(Char.toUpper upcases exactly the ASCII letters; the category strings
the program manipulates are ASCII). Defined on the character list so
that concrete instances evaluate inside the kernel. -/
def upper (s : String) : String := ⟨s.data.map Char.toUpper⟩

/-- JS slice(0, n) on a string: its first n characters (all of it when
shorter). Defined on the character list for kernel executability. -/
def strTake (s : String) (n : Nat) : String := ⟨s.data.take n⟩

/-- JS String.prototype.includes: pat occurs as a contiguous substring
of s. Executable: some suffix of s has pat as a prefix. -/
def strIncludes (s pat : String) : Bool :=
  s.toList.tails.any (fun t => pat.toList.isPrefixOf t)

/-- Post data handed to createPostHash (fields of the PostData interface
read by the hash: optional actorName and text). -/
structure PostData where
  actorName : Option String
  text : Option String
  deriving DecidableEq, Repr

/-- Embedding of createPostHash (src/contents/social-post-blocker.tsx
lines 76-85, identical copy in src/unnamed/part_003): the template
string actorName-or-empty, hyphen, first 150 chars of text-or-empty.
String operations cannot throw, so the catch fallback is dead code. -/
def createPostHash (data : PostData) : String :=
  (data.actorName.getD "") ++ "-" ++ strTake (data.text.getD "") 150

/-- Association-list lookup, modelling JS Map.prototype.get (undefined
becomes none). -/
def mapGet (m : List (String × α)) (k : String) : Option α :=
  (m.find? (fun p => p.1 == k)).map Prod.snd

/-- JS Map.prototype.set: overwrite the binding for k in place if
present, append it otherwise. -/
def mapSet (m : List (String × α)) (k : String) (v : α) :
    List (String × α) :=
  match m with
  | [] => [(k, v)]
  | p :: rest => if p.1 == k then (k, v) :: rest else p :: mapSet rest k v

/-- JS Map.prototype.delete: drop the binding for k. -/
def mapDelete (m : List (String × α)) (k : String) : List (String × α) :=
  m.filter (fun p => p.1 != k)

/-- Status-indicator states (the status argument of addStatusIndicator). -/
inductive Status
  | processing
  | processed
  | filtered
  | blocked
  deriving DecidableEq, Repr

/-- Entry of the module-level processedPosts map
(src/contents/social-post-blocker.tsx lines 49-58; the
ProcessedPostEntry type of src/contents/types). -/
structure CacheEntry where
  categories : List String
  tldr : String
  shouldBlock : Bool
  matchedCategories : List String
  processedAt : Nat
  deriving DecidableEq, Repr

/-- User include/exclude category lists after the Array.isArray coercion
in processPost (both fields are plain arrays). The word include is a
Lean keyword, hence the Cats suffix on the field names. -/
structure UserCategories where
  includeCats : List String
  excludeCats : List String
  deriving DecidableEq, Repr

/-- A non-null response from the categorize-post background call.
Setting categories to none models a response object whose categories
field is missing (the response.categories falsiness check); a JS empty
array is truthy, so some [] passes that check. -/
structure Response where
  categories : Option (List String)
  tldr : Option String
  deriving DecidableEq, Repr

/-- Everything one invocation of processPost reads from outside the
mutable post/cache state: storage values, platform/selector facts about
the element, extraction results, and the behaviour of the remote call. -/
structure Env where
  /-- truthiness of the stored enabled flag. -/
  enabled : Bool
  /-- whether the container matches the platform's POST selector. -/
  matchesSelector : Bool
  /-- user-categories from storage, after array coercion. -/
  userCategories : UserCategories
  /-- extracted post text (platform-specific extraction result). -/
  postText : String
  /-- extracted data.actorName (may remain unset on Twitter). -/
  actorName : Option String
  /-- debug-menu categorizeCache lookup result for this post hash. -/
  debugCachedResponse : Option Response
  /-- whether sendToBackground throws (messaging error). -/
  responseThrows : Bool
  /-- value resolved by sendToBackground (none = null/undefined). -/
  response : Option Response
  /-- module-level lastCategoriesUpdate timestamp. -/
  lastCategoriesUpdate : Nat
  /-- value of Date.now() at the cache-write point. -/
  now : Nat
  /-- persisted unmutedPosts fingerprint list from storage. -/
  unmutedPosts : List String
  /-- whether document.body still contains the container inside
  applyPostCover. -/
  containerInDom : Bool
  deriving DecidableEq, Repr

/-- Mutable state touched by processPost: the element's in-flight marker
and indicator, the presence of a feed-ly-cover overlay, and the
module-level processedPosts cache. -/
structure DomState where
  /-- the data-feedlyprocessing attribute. -/
  marker : Bool
  /-- the status-indicator badge state (none = no badge). -/
  indicator : Option Status
  /-- a feed-ly-cover element is present on the post/overlay target. -/
  hasCover : Bool
  /-- the processedPosts map. -/
  cache : List (String × CacheEntry)
  deriving DecidableEq, Repr

/-- Result of one processPost invocation: final state plus an effect
trace (number of sendToBackground categorize calls, whether a cover
element was actually created, whether a cached decision was reused). -/
structure PPResult where
  state : DomState
  remoteCalls : Nat
  coverApplied : Bool
  reusedCache : Bool
  deriving DecidableEq, Repr

/-- The fixed categoryVariations synonym table
(src/contents/social-post-blocker.tsx lines 1148-1171, identical copy in
src/unnamed/part_001), in Object.entries insertion order. -/
def categoryVariations : List (String × String) :=
  [("POLITIC", "POLITICS"),
   ("POLITICAL", "POLITICS"),
   ("POLICY", "POLITICS"),
   ("POLITICIAN", "POLITICS"),
   ("GOVERNMENT", "POLITICS"),
   ("ELECTION", "POLITICS"),
   ("SPORT", "SPORTS"),
   ("ATHLETIC", "SPORTS"),
   ("TECHNOLOGY", "TECH"),
   ("ARTIFICIAL INTELLIGENCE", "AI"),
   ("MACHINE LEARNING", "AI"),
   ("ML", "AI"),
   ("BUSINESS NEWS", "BUSINESS"),
   ("ENTREPRENEURSHIP", "BUSINESS"),
   ("STARTUP", "BUSINESS"),
   ("ADVERTISEMENT", "PROMOTIONAL"),
   ("SPONSORED", "PROMOTIONAL"),
   ("SELLING", "PROMOTIONAL"),
   ("PRODUCT", "PROMOTIONAL"),
   ("HUMOR", "MEME"),
   ("FUNNY", "MEME"),
   ("JOKE", "MEME")]

/-- The hasPattern check of the enhancement loop: some existing category's
uppercase form contains the pattern as a substring. -/
def hasPattern (cats : List String) (pat : String) : Bool :=
  cats.any (fun cat => strIncludes (upper cat) pat)

/-- One iteration of the enhancement loop body: skip if the enhanced list
already includes the standardized category, else append it when the
pattern is found. -/
def enhanceStep (cats enhanced : List String) (pr : String × String) :
    List String :=
  if enhanced.contains pr.2 then enhanced
  else if hasPattern cats pr.1 then enhanced ++ [pr.2]
  else enhanced

/-- The enhancement loop (src/contents/social-post-blocker.tsx lines
1173-1187): starting from a copy of categories, fold the loop body over
the categoryVariations entries. The categories argument is the
already-uppercased list from response.categories mapped to uppercase. -/
def enhanceCategories (categories : List String) : List String :=
  categoryVariations.foldl (enhanceStep categories) categories

/-- Specification companion to enhanceCategories: the list of categories
the loop appends beyond the originals, tracking the growing enhanced
list exactly as the loop does. -/
def addedLoop (cats : List String) :
    List (String × String) → List String → List String
  | [], _ => []
  | pr :: rest, enhanced =>
    if enhanced.contains pr.2 then addedLoop cats rest enhanced
    else if hasPattern cats pr.1 then
      pr.2 :: addedLoop cats rest (enhanced ++ [pr.2])
    else addedLoop cats rest enhanced

/-- The categories that enhancement appends to an (already uppercased)
category list. -/
def addedCategories (cats : List String) : List String :=
  addedLoop cats categoryVariations cats

/-- The shouldBlock computation (src/contents/social-post-blocker.tsx
lines 1189-1203, identical copy in src/unnamed/part_001 lines 954-971):
Array.prototype.some over the exclude list, pushing the uppercased
exclude entry onto matchingExcludeCategories on a match. Some
short-circuits at the first match, so later exclude entries are not
examined. Returns the pair (shouldBlock, matchingExcludeCategories). -/
def blockDecision (excludeCats enhanced : List String) : Bool × List String :=
  match excludeCats with
  | [] => (false, [])
  | e :: rest =>
    let upperExclude := upper e
    if enhanced.any (fun category => upper category == upperExclude) then
      (true, [upperExclude])
    else blockDecision rest enhanced

/-- The hasFilteredContent check on the allowed path (lines 1313-1319):
some category is literally in the exclude list, or some exclude entry is
a case-insensitive substring of it. -/
def hasFilteredContent (cats : List String) (uc : UserCategories) : Bool :=
  cats.any (fun cat =>
    uc.excludeCats.contains cat ||
    uc.excludeCats.any (fun e => strIncludes (upper cat) (upper e)))

/-- Embedding of applyPostCover (src/contents/social-post-blocker.tsx
lines 155-260; the same three guards open
src/contents/components/PostCover.tsx lines 19-53 and the
src/unnamed/part_001 copy): return before creating anything when the
fingerprint is in the persisted unmutedPosts list, when the container
left the DOM, or when a feed-ly-cover already exists; otherwise set the
indicator to blocked and install the cover element. Returns the new
state and whether a cover element was created. -/
def applyPostCoverM (env : Env) (s : DomState) (postHash : String) :
    DomState × Bool :=
  if env.unmutedPosts.contains postHash then (s, false)
  else if !env.containerInDom then (s, false)
  else if s.hasCover then (s, false)
  else ({ s with indicator := some .blocked, hasCover := true }, true)

/-- The shared failure path of the categorization phase: remove the
status indicator, clear the in-flight marker, write nothing. -/
def abortResult (s : DomState) (calls : Nat) : PPResult :=
  ⟨{ s with indicator := none, marker := false }, calls, false, false⟩

/-- Handling of an obtained categorization response (src/contents/
social-post-blocker.tsx lines 1113-1331): a null response or one without
a categories field aborts; otherwise the categories are uppercased,
enhanced, the block decision taken, the result cached with the current
timestamp, and the indicator/cover updated. The categoriesUpdatedDirty
block (lines 1216-1265) only shows a toast and is outside the tracked
state. -/
def handleResponse (env : Env) (s : DomState) (postHash : String)
    (response : Option Response) (calls : Nat) : PPResult :=
  match response with
  | none => abortResult s calls
  | some resp =>
    match resp.categories with
    | none => abortResult s calls
    | some rawCats =>
      let categories := rawCats.map upper
      let tldr := (resp.tldr).getD "No summary available"
      let enhanced := enhanceCategories categories
      let dec := blockDecision env.userCategories.excludeCats enhanced
      let s₁ := { s with
        cache := mapSet s.cache postHash
          ⟨enhanced, tldr, dec.1, dec.2, env.now⟩ }
      if dec.1 then
        let s₂ := { s₁ with indicator := some .blocked }
        let ac := applyPostCoverM env s₂ postHash
        ⟨{ ac.1 with marker := false }, calls, ac.2, false⟩
      else
        let s₂ := { s₁ with hasCover := false }
        let filtered := hasFilteredContent enhanced env.userCategories
        ⟨{ s₂ with
            indicator := some (if filtered then .filtered else .processed),
            marker := false }, calls, false, false⟩

/-- The categorization phase of processPost (the inner try at lines
1084-1135 plus the decision code), entered on a cache miss or after a
stale entry was deleted: a debug-menu cached response short-circuits the
background call; an exception from sendToBackground is caught on the
abort path. -/
def categorizePhase (env : Env) (s : DomState) (postHash : String) :
    PPResult :=
  match env.debugCachedResponse with
  | some r => handleResponse env s postHash (some r) 0
  | none =>
    if env.responseThrows then abortResult s 1
    else handleResponse env s postHash env.response 1

/-- One invocation of processPost (src/contents/social-post-blocker.tsx
lines 793-1356) on a single post element, as a pure state transformer.
Faithful path structure:
1. enabled / in-flight-marker / post-selector guards (before mutation);
2. set data-feedlyprocessing, show the processing indicator;
3. return early when the coerced exclude list is empty (note: without
   clearing the marker or the indicator — lines 904-910);
4. return early when a feed-ly-cover already exists (same note —
   lines 981-984);
5. cache check: a fresh entry is replayed (blocked applies the cover,
   allowed shows filtered/processed) and the marker cleared; a stale
   entry (processedAt < lastCategoriesUpdate) is deleted and processing
   falls through to the categorization phase. -/
def processPost (env : Env) (s₀ : DomState) : PPResult :=
  if !env.enabled then ⟨s₀, 0, false, false⟩
  else if s₀.marker then ⟨s₀, 0, false, false⟩
  else if !env.matchesSelector then ⟨s₀, 0, false, false⟩
  else
    let s₁ := { s₀ with marker := true, indicator := some .processing }
    if env.userCategories.excludeCats.isEmpty then
      ⟨s₁, 0, false, false⟩
    else
      let postHash := createPostHash ⟨env.actorName, some env.postText⟩
      if s₁.hasCover then ⟨s₁, 0, false, false⟩
      else
        match mapGet s₁.cache postHash with
        | some cachedResult =>
          if cachedResult.processedAt < env.lastCategoriesUpdate then
            let s₂ := { s₁ with cache := mapDelete s₁.cache postHash }
            categorizePhase env s₂ postHash
          else
            if cachedResult.shouldBlock then
              let s₂ := { s₁ with indicator := some .blocked }
              let ac := applyPostCoverM env s₂ postHash
              ⟨{ ac.1 with marker := false }, 0, ac.2, true⟩
            else
              let s₂ := { s₁ with hasCover := false }
              let filtered :=
                hasFilteredContent cachedResult.categories env.userCategories
              ⟨{ s₂ with
                  indicator :=
                    some (if filtered then .filtered else .processed),
                  marker := false }, 0, false, true⟩
        | none => categorizePhase env s₁ postHash

/-! ## The caching service (src/contents/services/cache.ts) -/

/-- The two module-level maps of the caching service. -/
structure CacheState where
  processedPosts : List (String × CacheEntry)
  apiCache : List (String × Bool)
  deriving DecidableEq, Repr

/-- A categorization result without its timestamp (the
Omit ProcessedPostEntry processedAt argument of cacheProcessedPost). -/
structure ResultData where
  categories : List String
  tldr : String
  shouldBlock : Bool
  matchedCategories : List String
  deriving DecidableEq, Repr

/-- Embedding of cacheProcessedPost (cache.ts lines 20-29): store the
result under the post's hash with the current timestamp attached. -/
def cacheProcessedPost (postData : PostData) (result : ResultData)
    (now : Nat) (st : CacheState) : CacheState :=
  let entry : CacheEntry :=
    ⟨result.categories, result.tldr, result.shouldBlock,
     result.matchedCategories, now⟩
  { st with processedPosts :=
      mapSet st.processedPosts (createPostHash postData) entry }

/-- Embedding of getProcessedPost (cache.ts lines 34-39). -/
def getProcessedPost (postData : PostData) (st : CacheState) :
    Option CacheEntry :=
  mapGet st.processedPosts (createPostHash postData)

/-- Embedding of isPostProcessed (cache.ts lines 44-47,
Map.prototype.has). -/
def isPostProcessed (postData : PostData) (st : CacheState) : Bool :=
  (mapGet st.processedPosts (createPostHash postData)).isSome

/-- Embedding of clearProcessedPostsCache (cache.ts lines 52-54). -/
def clearProcessedPostsCache (st : CacheState) : CacheState :=
  { st with processedPosts := [] }

/-- Embedding of clearApiCache (cache.ts lines 59-61). -/
def clearApiCache (st : CacheState) : CacheState :=
  { st with apiCache := [] }

/-- Embedding of clearAllCaches (cache.ts lines 66-69). -/
def clearAllCaches (st : CacheState) : CacheState :=
  clearApiCache (clearProcessedPostsCache st)

/-! ## Concrete fixtures used by counterexamples and witnesses -/

/-- The empty post state: no marker, no indicator, no cover, empty cache. -/
def stEmpty : DomState := ⟨false, none, false, []⟩

/-- A baseline environment: filtering enabled, element matches, exclude
list POLITICS, text "x", no author, working remote call. -/
def baseEnv : Env where
  enabled := true
  matchesSelector := true
  userCategories := ⟨[], ["POLITICS"]⟩
  postText := "x"
  actorName := none
  debugCachedResponse := none
  responseThrows := false
  response := some ⟨some ["POLITICS"], some "t"⟩
  lastCategoriesUpdate := 0
  now := 5
  unmutedPosts := []
  containerInDom := true

/-- Environment with two matching exclude entries: exclude
[POLITICS, SPORTS], categorizer returns [POLITICS, SPORTS]. -/
def envC1 : Env :=
  { baseEnv with
    userCategories := ⟨[], ["POLITICS", "SPORTS"]⟩
    response := some ⟨some ["POLITICS", "SPORTS"], some "t"⟩ }

/-- End-to-end scenario C of the spec: exclude [POLITICS], include
[SPORTS], categorizer returns [POLITICS, SPORTS]. -/
def envC2 : Env :=
  { baseEnv with
    userCategories := ⟨["SPORTS"], ["POLITICS"]⟩
    response := some ⟨some ["POLITICS", "SPORTS"], some "t"⟩ }

/-- A stale cache entry: processed at time 3. -/
def entryC3 : CacheEntry := ⟨["POLITICS"], "t", true, ["POLITICS"], 3⟩

/-- Environment whose categories were last updated at time 10, after the
entryC3 timestamp. -/
def envC3 : Env := { baseEnv with lastCategoriesUpdate := 10 }

/-- State holding the stale entryC3 under the hash of baseEnv's post. -/
def stC3 : DomState := ⟨false, none, false, [("-x", entryC3)]⟩

/-- Environment whose unmutedPosts records the fingerprint "a-b". -/
def envC4 : Env := { baseEnv with unmutedPosts := ["a-b"] }

/-- Environment with an empty coerced user-categories exclude list. -/
def envC5 : Env := { baseEnv with userCategories := ⟨[], []⟩ }

/-- Environment whose remote response lacks the categories field. -/
def envC7 : Env := { baseEnv with response := some ⟨none, some "t"⟩ }

/-- Environment with filtering disabled. -/
def envC8 : Env := { baseEnv with enabled := false }

/-! ## Helper lemmas -/

/-- List.contains agrees with membership for strings. -/
theorem contains_iff_mem (l : List String) (a : String) :
    l.contains a = true ↔ a ∈ l := by
  simp [List.contains, List.elem_iff]

/-- Looking up the key just set returns the value just set. -/
theorem mapGet_mapSet_self (m : List (String × α)) (k : String) (v : α) :
    mapGet (mapSet m k v) k = some v := by
  induction m with
  | nil => simp [mapGet, mapSet]
  | cons p rest ih =>
    by_cases h : p.1 = k
    · simp [mapGet, mapSet, h]
    · have hb : (p.1 == k) = false := by simp [h]
      simp [mapGet, mapSet, hb, List.find?]
      simpa [mapGet] using ih

/-- Lookup in the empty map misses. -/
theorem mapGet_nil (k : String) : mapGet ([] : List (String × α)) k = none :=
  rfl

/-! ## C6 — fingerprint purity -/

/-- C6: the fingerprint is a pure function of the author name and the
first 150 characters of the post text: createPostHash returns the string
built from the author name (or empty), a hyphen, and the first 150
characters of the text (or empty), so any two posts with identical
(author, first-150-chars) data get identical fingerprints. -/
theorem c6_createPostHash_pure (d₁ d₂ : PostData)
    (ha : d₁.actorName.getD "" = d₂.actorName.getD "")
    (ht : strTake (d₁.text.getD "") 150 = strTake (d₂.text.getD "") 150) :
    createPostHash d₁ = createPostHash d₂ ∧
    createPostHash d₁ =
      (d₁.actorName.getD "") ++ "-" ++ strTake (d₁.text.getD "") 150 := by
  constructor
  · simp [createPostHash, ha, ht]
  · rfl

/-- Witness for C6 at concrete posts sharing the author and the first 150
characters of text. -/
theorem c6_createPostHash_pure_witness :
    createPostHash ⟨some "alice", some "hello world"⟩ =
      createPostHash ⟨some "alice", some "hello world"⟩ ∧
    createPostHash ⟨some "alice", some "hello world"⟩ =
      "alice" ++ "-" ++ strTake "hello world" 150 :=
  c6_createPostHash_pure ⟨some "alice", some "hello world"⟩
    ⟨some "alice", some "hello world"⟩ rfl rfl

/-! ## C10 — cache service round-trip laws -/

/-- C10: immediately after cacheProcessedPost the cache answers
isPostProcessed with true and getProcessedPost returns the stored result
with the timestamp attached; after clearProcessedPostsCache or
clearAllCaches every lookup returns none. -/
theorem c10_cache_roundtrip (pd : PostData) (r : ResultData) (now : Nat)
    (st : CacheState) :
    isPostProcessed pd (cacheProcessedPost pd r now st) = true ∧
    getProcessedPost pd (cacheProcessedPost pd r now st) =
      some ⟨r.categories, r.tldr, r.shouldBlock, r.matchedCategories, now⟩ ∧
    (∀ pd' : PostData,
      getProcessedPost pd' (clearProcessedPostsCache st) = none) ∧
    (∀ pd' : PostData, getProcessedPost pd' (clearAllCaches st) = none) := by
  refine ⟨?_, ?_, ?_, ?_⟩
  · simp [isPostProcessed, cacheProcessedPost, mapGet_mapSet_self]
  · simp [getProcessedPost, cacheProcessedPost, mapGet_mapSet_self]
  · intro pd'; rfl
  · intro pd'; rfl

/-! ## C4 — unmuted posts are never covered again -/

/-- C4: whenever applyPostCover is called with a post hash recorded in
the persisted unmutedPosts list, it returns before adding any cover
element: the state is unchanged and no cover is created, whatever the
rest of the state (hence also after cache invalidation or
reprocessing). -/
theorem c4_unmuted_never_covered (env : Env) (s : DomState)
    (postHash : String) (h : postHash ∈ env.unmutedPosts) :
    applyPostCoverM env s postHash = (s, false) := by
  have hc : env.unmutedPosts.contains postHash = true :=
    (contains_iff_mem env.unmutedPosts postHash).mpr h
  simp only [applyPostCoverM, hc]
  simp

/-- Witness for C4: the fingerprint recorded in envC4's unmutedPosts is
not covered again. -/
theorem c4_unmuted_never_covered_witness :
    applyPostCoverM envC4 stEmpty "a-b" = (stEmpty, false) :=
  c4_unmuted_never_covered envC4 stEmpty "a-b" (by decide)

/-! ## C8 — failed preconditions leave all state untouched -/

/-- C8: if filtering is disabled, or the element already carries the
in-flight marker, or it does not match the platform's post selector,
processPost returns without changing any state: no marker set, no
indicator added, no cache write, no remote call, no cover; a second
invocation on an in-flight element therefore performs no duplicate
processing pass. -/
theorem c8_preconditions_unchanged (env : Env) (s₀ : DomState)
    (h : env.enabled = false ∨ s₀.marker = true ∨
      env.matchesSelector = false) :
    processPost env s₀ = ⟨s₀, 0, false, false⟩ := by
  rcases h with h | h | h
  · simp [processPost, h]
  · cases he : env.enabled <;> simp [processPost, he, h]
  · cases he : env.enabled
    · simp [processPost, he]
    · cases hm : s₀.marker <;> simp [processPost, he, hm, h]

/-- Witness for C8: with filtering disabled, a concrete invocation
changes nothing. -/
theorem c8_preconditions_unchanged_witness :
    processPost envC8 stEmpty = ⟨stEmpty, 0, false, false⟩ :=
  c8_preconditions_unchanged envC8 stEmpty (Or.inl rfl)

/-! ## C5 — the in-flight marker is NOT cleared on every path -/

/-- C5 (refuting evaluation): with filtering enabled, a matching,
not-in-flight element, and an empty coerced exclude list, processPost
sets the data-feedlyprocessing marker and the processing indicator and
then returns with both still in place — the early return at
src/contents/social-post-blocker.tsx lines 904-910 has no clearing code,
unlike every other return path (the refactored variant in
src/unnamed/part_002 clears the marker in a finally block and clears
both on its empty-categories path). -/
theorem c5_marker_leak_on_empty_exclude :
    (processPost envC5 stEmpty).state.marker = true ∧
    (processPost envC5 stEmpty).state.indicator = some .processing ∧
    stEmpty.marker = false ∧ envC5.enabled = true ∧
    envC5.matchesSelector = true := by decide

/-! ## C1 — block decision and matchedCategories -/

/-- The boolean component of blockDecision holds exactly when some
exclude entry matches some enhanced category case-insensitively. -/
theorem blockDecision_fst (excludeCats enhanced : List String) :
    (blockDecision excludeCats enhanced).1 = true ↔
      ∃ e ∈ excludeCats, ∃ c ∈ enhanced, upper c = upper e := by
  induction excludeCats with
  | nil => simp [blockDecision]
  | cons e rest ih =>
    by_cases hm :
        enhanced.any (fun category => upper category == upper e) = true
    · obtain ⟨c, hc, hce⟩ := List.any_eq_true.mp hm
      simp only [blockDecision, hm, if_true]
      constructor
      · intro _
        exact ⟨e, List.mem_cons_self e rest, c, hc, by simpa using hce⟩
      · intro _
        trivial
    · have hm' := eq_false_of_ne_true hm
      simp only [blockDecision, hm', Bool.false_eq_true, if_false]
      rw [ih]
      constructor
      · rintro ⟨e', he', hx⟩
        exact ⟨e', List.mem_cons_of_mem _ he', hx⟩
      · rintro ⟨e', he', c, hc, hce⟩
        rcases List.mem_cons.mp he' with heq | he''
        · subst heq
          exact absurd (List.any_eq_true.mpr ⟨c, hc, by simpa using hce⟩) hm
        · exact ⟨e', he'', c, hc, hce⟩

/-- The list component of blockDecision is the uppercased first matching
exclude entry, or empty when nothing matches: Array.prototype.some stops
at the first match, so entries after it are never pushed. -/
theorem blockDecision_snd (excludeCats enhanced : List String) :
    (blockDecision excludeCats enhanced).2 =
      (match excludeCats.find?
          (fun e => enhanced.any
            (fun category => upper category == upper e)) with
       | some e => [upper e]
       | none => []) := by
  induction excludeCats with
  | nil => simp [blockDecision]
  | cons e rest ih =>
    by_cases hm :
        enhanced.any (fun category => upper category == upper e) = true
    · have hf : List.find?
          (fun e => enhanced.any (fun category => upper category == upper e))
          (e :: rest) = some e := List.find?_cons_of_pos _ hm
      simp [blockDecision, hm, hf]
    · have hf : List.find?
          (fun e => enhanced.any (fun category => upper category == upper e))
          (e :: rest) =
          List.find?
            (fun e => enhanced.any
              (fun category => upper category == upper e)) rest :=
        List.find?_cons_of_neg _ (by simpa using hm)
      have hm' := eq_false_of_ne_true hm
      simp only [blockDecision, hm', Bool.false_eq_true, if_false, hf]
      exact ih

/-- C1 counterexample: with exclude list [POLITICS, SPORTS] and
categorizer categories [POLITICS, SPORTS], processPost caches the
decision with matchedCategories equal to [POLITICS] although SPORTS is
also a matching exclude entry — so not every matching exclude entry is
recorded, refuting the second half of the claim. -/
theorem c1_counterexample :
    mapGet (processPost envC1 stEmpty).state.cache
        (createPostHash ⟨envC1.actorName, some envC1.postText⟩) =
      some ⟨["POLITICS", "SPORTS"], "t", true, ["POLITICS"], 5⟩ ∧
    ¬ (∀ e ∈ envC1.userCategories.excludeCats,
        (∃ c ∈ (["POLITICS", "SPORTS"] : List String), upper c = upper e) →
        upper e ∈ (["POLITICS"] : List String)) := by decide

/-- C1 amended: shouldBlock is true iff some exclude entry matches some
normalized category case-insensitively (this half of the claim holds),
and matchedCategories records exactly the uppercased FIRST matching
exclude entry — not every matching one — because Array.prototype.some
short-circuits. -/
theorem c1_blockDecision_amended (excludeCats enhanced : List String) :
    ((blockDecision excludeCats enhanced).1 = true ↔
      ∃ e ∈ excludeCats, ∃ c ∈ enhanced, upper c = upper e) ∧
    (blockDecision excludeCats enhanced).2 =
      (match excludeCats.find?
          (fun e => enhanced.any
            (fun category => upper category == upper e)) with
       | some e => [upper e]
       | none => []) :=
  ⟨blockDecision_fst excludeCats enhanced,
   blockDecision_snd excludeCats enhanced⟩

/-! ## C2 — no include precedence exists -/

/-- C2 counterexample: end-to-end scenario C — exclude [POLITICS],
include [SPORTS], categorizer returns [POLITICS, SPORTS] — produces
shouldBlock = true, not false: the shouldBlock computation never
consults the include list. -/
theorem c2_counterexample :
    (mapGet (processPost envC2 stEmpty).state.cache
        (createPostHash ⟨envC2.actorName, some envC2.postText⟩)).map
        (fun entry => entry.shouldBlock) = some true ∧
    envC2.userCategories.includeCats = ["SPORTS"] ∧
    envC2.userCategories.excludeCats = ["POLITICS"] := by decide

/-- C2 amended: the include list has no effect on processPost whatsoever
(there is no include precedence in the code): replacing it by any other
list leaves the entire result unchanged; and in scenario C the cached
decision is shouldBlock = true. -/
theorem c2_include_has_no_effect :
    (∀ (env : Env) (s₀ : DomState) (incl : List String),
      processPost
        { env with userCategories :=
            ⟨incl, env.userCategories.excludeCats⟩ } s₀ =
        processPost env s₀) ∧
    (mapGet (processPost envC2 stEmpty).state.cache
        (createPostHash ⟨envC2.actorName, some envC2.postText⟩)).map
        (fun entry => entry.shouldBlock) = some true := by
  constructor
  · intro env s₀ incl
    rfl
  · decide

/-! ## C7 — malformed remote responses abort without retry -/

/-- C7: under the preconditions that reach the remote categorization
call, a null response or a response without a categories field makes
processPost abort: the status indicator is removed, the in-flight marker
is cleared, the cache and cover are untouched, no cover is applied, and
exactly one request was sent (no retry). -/
theorem c7_invalid_response_aborts (env : Env) (s₀ : DomState)
    (h1 : env.enabled = true) (h2 : s₀.marker = false)
    (h3 : env.matchesSelector = true)
    (h4 : env.userCategories.excludeCats ≠ [])
    (h5 : s₀.hasCover = false)
    (h6 : mapGet s₀.cache
      (createPostHash ⟨env.actorName, some env.postText⟩) = none)
    (hdbg : env.debugCachedResponse = none)
    (hthrow : env.responseThrows = false)
    (hbad : env.response = none ∨
      ∃ resp, env.response = some resp ∧ resp.categories = none) :
    processPost env s₀ =
      ⟨⟨false, none, s₀.hasCover, s₀.cache⟩, 1, false, false⟩ := by
  have h4' : env.userCategories.excludeCats.isEmpty = false := by
    simpa [List.isEmpty_iff] using h4
  rcases hbad with hb | ⟨resp, hb, hcats⟩
  · simp [processPost, categorizePhase, handleResponse, abortResult,
      h1, h2, h3, h4', h5, h6, hdbg, hthrow, hb]
  · simp [processPost, categorizePhase, handleResponse, abortResult,
      h1, h2, h3, h4', h5, h6, hdbg, hthrow, hb, hcats]

/-- Witness for C7: a concrete response with a missing categories field
aborts the concrete run. -/
theorem c7_invalid_response_aborts_witness :
    processPost envC7 stEmpty =
      ⟨⟨false, none, stEmpty.hasCover, stEmpty.cache⟩, 1, false, false⟩ :=
  c7_invalid_response_aborts envC7 stEmpty rfl rfl rfl (by decide) rfl rfl
    rfl rfl (Or.inr ⟨⟨none, some "t"⟩, rfl, rfl⟩)

/-! ## C3 — stale cache entries are never reused -/

/-- Response handling never reports a reused cached decision. -/
theorem handleResponse_not_reused (env : Env) (s : DomState) (h : String)
    (response : Option Response) (calls : Nat) :
    (handleResponse env s h response calls).reusedCache = false := by
  rcases response with _ | resp
  · rfl
  · rcases hr : resp.categories with _ | rawCats
    · simp [handleResponse, hr, abortResult]
    · simp only [handleResponse, hr]
      split <;> rfl

/-- The categorization phase never reports a reused cached decision. -/
theorem categorizePhase_not_reused (env : Env) (s : DomState)
    (h : String) :
    (categorizePhase env s h).reusedCache = false := by
  rcases hd : env.debugCachedResponse with _ | r
  · by_cases ht : env.responseThrows = true
    · simp [categorizePhase, hd, ht, abortResult]
    · have ht' := eq_false_of_ne_true ht
      simp [categorizePhase, hd, ht', handleResponse_not_reused]
  · simp [categorizePhase, hd, handleResponse_not_reused]

/-- C3: under the preconditions that reach the cache check, a cached
entry older than the last categories update is not reused: the stale
entry is deleted from the processedPosts map and processing continues
with the remote categorization phase on the deleted-entry state, so no
blocking decision is rendered from the stale entry; conversely a cached
decision is only ever reused when its timestamp is at least the last
categories update. -/
theorem c3_stale_entry_not_reused (env : Env) (s₀ : DomState) :
    (∀ entry : CacheEntry,
      env.enabled = true → s₀.marker = false → env.matchesSelector = true →
      env.userCategories.excludeCats ≠ [] → s₀.hasCover = false →
      mapGet s₀.cache (createPostHash ⟨env.actorName, some env.postText⟩) =
        some entry →
      entry.processedAt < env.lastCategoriesUpdate →
      processPost env s₀ =
        categorizePhase env
          ⟨true, some .processing, s₀.hasCover,
            mapDelete s₀.cache
              (createPostHash ⟨env.actorName, some env.postText⟩)⟩
          (createPostHash ⟨env.actorName, some env.postText⟩) ∧
      (processPost env s₀).reusedCache = false) ∧
    ((processPost env s₀).reusedCache = true →
      ∃ entry : CacheEntry,
        mapGet s₀.cache
            (createPostHash ⟨env.actorName, some env.postText⟩) =
          some entry ∧
        env.lastCategoriesUpdate ≤ entry.processedAt) := by
  constructor
  · intro entry h1 h2 h3 h4 h5 h6 h7
    have h4' : env.userCategories.excludeCats.isEmpty = false := by
      simpa [List.isEmpty_iff] using h4
    have heq : processPost env s₀ =
        categorizePhase env
          ⟨true, some .processing, s₀.hasCover,
            mapDelete s₀.cache
              (createPostHash ⟨env.actorName, some env.postText⟩)⟩
          (createPostHash ⟨env.actorName, some env.postText⟩) := by
      simp [processPost, h1, h2, h3, h4', h5, h6, h7]
    exact ⟨heq, by rw [heq]; exact categorizePhase_not_reused _ _ _⟩
  · intro hr
    unfold processPost at hr
    by_cases h1 : env.enabled = true
    · by_cases h2 : s₀.marker = true
      · simp [h1, h2] at hr
      · have h2' := eq_false_of_ne_true h2
        by_cases h3 : env.matchesSelector = true
        · by_cases h4 : env.userCategories.excludeCats.isEmpty = true
          · simp [h1, h2', h3, h4] at hr
          · have h4' := eq_false_of_ne_true h4
            by_cases h5 : s₀.hasCover = true
            · simp [h1, h2', h3, h4', h5] at hr
            · have h5' := eq_false_of_ne_true h5
              simp only [h1, h2', h3, h4', h5', Bool.not_true,
                Bool.false_eq_true, if_false, Bool.not_false, if_true] at hr
              rcases hg : mapGet s₀.cache
                  (createPostHash ⟨env.actorName, some env.postText⟩) with
                _ | entry
              · rw [hg] at hr
                rw [categorizePhase_not_reused] at hr
                exact absurd hr (by simp)
              · rw [hg] at hr
                by_cases h7 :
                    entry.processedAt < env.lastCategoriesUpdate
                · simp only [h7, if_true] at hr
                  rw [categorizePhase_not_reused] at hr
                  exact absurd hr (by simp)
                · exact ⟨entry, rfl, Nat.le_of_not_lt h7⟩
        · have h3' := eq_false_of_ne_true h3
          simp [h1, h2', h3'] at hr
    · have h1' := eq_false_of_ne_true h1
      simp [h1'] at hr

/-- Witness for C3: the concrete state stC3 holds the stale entryC3, and
the concrete run deletes it and continues with the categorization
phase without reusing it. -/
theorem c3_stale_entry_not_reused_witness :
    processPost envC3 stC3 =
      categorizePhase envC3
        ⟨true, some .processing, stC3.hasCover,
          mapDelete stC3.cache
            (createPostHash ⟨envC3.actorName, some envC3.postText⟩)⟩
        (createPostHash ⟨envC3.actorName, some envC3.postText⟩) ∧
    (processPost envC3 stC3).reusedCache = false :=
  (c3_stale_entry_not_reused envC3 stC3).1 entryC3 rfl rfl rfl (by decide)
    rfl (by decide) (by decide)

/-! ## C9 — category normalization -/

/-- Unfolding the enhancement fold: the result is the accumulator
followed by the categories the loop appends. -/
theorem foldl_enhanceStep_eq (cats : List String)
    (vs : List (String × String)) (enhanced : List String) :
    vs.foldl (enhanceStep cats) enhanced =
      enhanced ++ addedLoop cats vs enhanced := by
  induction vs generalizing enhanced with
  | nil => simp [addedLoop]
  | cons pr rest ih =>
    by_cases hc : enhanced.contains pr.2 = true
    · simp only [List.foldl_cons, enhanceStep, hc, if_true, addedLoop]
      exact ih enhanced
    · have hc' := eq_false_of_ne_true hc
      by_cases hp : hasPattern cats pr.1 = true
      · simp only [List.foldl_cons, enhanceStep, hc', Bool.false_eq_true,
          if_false, hp, if_true, addedLoop]
        rw [ih (enhanced ++ [pr.2])]
        simp
      · have hp' := eq_false_of_ne_true hp
        simp only [List.foldl_cons, enhanceStep, hc', hp',
          Bool.false_eq_true, if_false, addedLoop]
        exact ih enhanced

/-- Membership in the appended categories: a category is appended
exactly when it is not already present (in the accumulator, which
includes everything appended earlier) and some variation pair maps a
matched pattern to it. -/
theorem mem_addedLoop (cats : List String) (vs : List (String × String))
    (enhanced : List String) (x : String) :
    x ∈ addedLoop cats vs enhanced ↔
      x ∉ enhanced ∧ ∃ pr ∈ vs, pr.2 = x ∧ hasPattern cats pr.1 = true := by
  induction vs generalizing enhanced with
  | nil => simp [addedLoop]
  | cons pr rest ih =>
    by_cases hc : enhanced.contains pr.2 = true
    · have hmem : pr.2 ∈ enhanced := (contains_iff_mem _ _).mp hc
      simp only [addedLoop, hc, if_true]
      rw [ih enhanced]
      constructor
      · rintro ⟨hx, pr', hpr', hx2, hp⟩
        exact ⟨hx, pr', List.mem_cons_of_mem _ hpr', hx2, hp⟩
      · rintro ⟨hx, pr', hpr', hx2, hp⟩
        rcases List.mem_cons.mp hpr' with heq | hpr''
        · subst heq; subst hx2; exact absurd hmem hx
        · exact ⟨hx, pr', hpr'', hx2, hp⟩
    · have hc' := eq_false_of_ne_true hc
      have hnmem : pr.2 ∉ enhanced := fun hmem =>
        hc ((contains_iff_mem _ _).mpr hmem)
      by_cases hp : hasPattern cats pr.1 = true
      · simp only [addedLoop, hc', Bool.false_eq_true, if_false, hp,
          if_true, List.mem_cons]
        rw [ih (enhanced ++ [pr.2])]
        constructor
        · rintro (rfl | ⟨hx, pr', hpr', hx2, hp'⟩)
          · exact ⟨hnmem, pr, Or.inl rfl, rfl, hp⟩
          · simp only [List.mem_append, List.mem_singleton, not_or] at hx
            exact ⟨hx.1, pr', Or.inr hpr', hx2, hp'⟩
        · rintro ⟨hx, pr', hpr', hx2, hp'⟩
          by_cases hxe : x = pr.2
          · exact Or.inl hxe
          · rcases hpr' with heq | hpr''
            · subst heq; exact absurd hx2 (fun h => hxe h.symm)
            · refine Or.inr ⟨?_, pr', hpr'', hx2, hp'⟩
              simp only [List.mem_append, List.mem_singleton, not_or]
              exact ⟨hx, hxe⟩
      · have hp' := eq_false_of_ne_true hp
        simp only [addedLoop, hc', hp', Bool.false_eq_true, if_false]
        rw [ih enhanced]
        constructor
        · rintro ⟨hx, pr', hpr', hx2, hq⟩
          exact ⟨hx, pr', List.mem_cons_of_mem _ hpr', hx2, hq⟩
        · rintro ⟨hx, pr', hpr', hx2, hq⟩
          rcases List.mem_cons.mp hpr' with heq | hpr''
          · subst heq; subst hx2; exact absurd hq (by simp [hp'])
          · exact ⟨hx, pr', hpr'', hx2, hq⟩

/-- The appended categories contain no duplicates: once appended, a
standard category is present and every later pair for it is skipped. -/
theorem nodup_addedLoop (cats : List String) (vs : List (String × String))
    (enhanced : List String) :
    (addedLoop cats vs enhanced).Nodup := by
  induction vs generalizing enhanced with
  | nil => simp [addedLoop]
  | cons pr rest ih =>
    by_cases hc : enhanced.contains pr.2 = true
    · simp only [addedLoop, hc, if_true]
      exact ih enhanced
    · have hc' := eq_false_of_ne_true hc
      by_cases hp : hasPattern cats pr.1 = true
      · simp only [addedLoop, hc', Bool.false_eq_true, if_false, hp,
          if_true, List.nodup_cons]
        refine ⟨fun hmem => ?_, ih (enhanced ++ [pr.2])⟩
        have := (mem_addedLoop cats rest (enhanced ++ [pr.2]) pr.2).mp hmem
        exact this.1 (by simp)
      · have hp' := eq_false_of_ne_true hp
        simp only [addedLoop, hc', hp', Bool.false_eq_true, if_false]
        exact ih enhanced

/-- C9: normalization only appends — the enhanced list is the uppercased
original categories followed by the appended standard categories; each
original category (uppercased) is kept; the appended list has no
duplicates; and a category is appended exactly when it is absent from
the uppercased originals and some (pattern, standard) entry of the
categoryVariations table maps a pattern contained in some original
category's uppercase form to it. Includes the two examples named by the
claim: POLITICAL yields POLITICS and SPORT yields SPORTS. -/
theorem c9_enhanceCategories_spec (rawCats : List String) :
    enhanceCategories (rawCats.map upper) =
      rawCats.map upper ++ addedCategories (rawCats.map upper) ∧
    (∀ c ∈ rawCats, upper c ∈ enhanceCategories (rawCats.map upper)) ∧
    (addedCategories (rawCats.map upper)).Nodup ∧
    (∀ x : String, x ∈ addedCategories (rawCats.map upper) ↔
      x ∉ rawCats.map upper ∧
      ∃ pr ∈ categoryVariations, pr.2 = x ∧
        hasPattern (rawCats.map upper) pr.1 = true) ∧
    enhanceCategories ["POLITICAL"] = ["POLITICAL", "POLITICS"] ∧
    enhanceCategories ["SPORT"] = ["SPORT", "SPORTS"] := by
  refine ⟨?_, ?_, ?_, ?_, by decide, by decide⟩
  · exact foldl_enhanceStep_eq (rawCats.map upper) categoryVariations
      (rawCats.map upper)
  · intro c hc
    rw [enhanceCategories,
      foldl_enhanceStep_eq (rawCats.map upper) categoryVariations
        (rawCats.map upper)]
    exact List.mem_append_left _ (List.mem_map_of_mem upper hc)
  · exact nodup_addedLoop _ _ _
  · intro x
    exact mem_addedLoop (rawCats.map upper) categoryVariations
      (rawCats.map upper) x

end PerceptualFilter
